import Mathlib

/-!
Shallow embedding of `font_converter.py` (repository Font-Convert-Action).

The script downloads a font from a URL into a scratch directory
`temp_fonts`, validates it, re-serializes it into a target container
format via the fontTools `TTFont` class, validates the result, reports
sizes, moves the output into the working directory and removes the
scratch directory.

The embedding models:
  - the string manipulations (`os.path.basename`, `str.split`,
    `os.path.splitext`, `str.lower`, `str.lstrip`) over `List Char`;
  - the filesystem as a flat association of path strings to byte lists,
    plus a set of directories;
  - the HTTP layer (`requests.get`) as an oracle from URLs to an
    optional response (status, delivered chunks, mid-stream truncation);
  - the fontTools library as an oracle with `parse` (what `TTFont(path)`
    recovers: the container flavor and the glyph order) and `save`
    (serializing a font value to bytes);
  - the `main` pipeline as a function from those oracles, arguments and
    an initial filesystem to an exit code, final filesystem, a trace of
    the stages executed and the reported sizes.
-/

/-- Python `s.rfind(c)`: index of the last occurrence of `c`, `-1` if absent. -/
def lastIdx (c : Char) : List Char → Int
  | [] => -1
  | x :: xs => if 0 ≤ lastIdx c xs then lastIdx c xs + 1 else if x = c then 0 else -1

/-- `os.path.basename` (posix): the suffix after the last `'/'`,
implemented as Python does it: `p[p.rfind(sep) + 1:]`. -/
def basenameL (p : List Char) : List Char := p.drop ((lastIdx '/' p) + 1).toNat

/-- `os.path.splitext` (posix, source of `genericpath._splitext` with
`sep = '/'`, no `altsep`, `extsep = '.'`): splits off the extension when the
last dot lies after the last separator and some character strictly between
the separator and that dot is not a dot (leading dots of the base name do
not start an extension). -/
def splitextL (p : List Char) : List Char × List Char :=
  if lastIdx '/' p < lastIdx '.' p then
    if ((p.take (lastIdx '.' p).toNat).drop (lastIdx '/' p + 1).toNat).any
        (fun c => c != '.') then
      (p.take (lastIdx '.' p).toNat, p.drop (lastIdx '.' p).toNat)
    else (p, [])
  else (p, [])

/-- `"pre".isPrefixOf s` test used to model which files `shutil.rmtree`
removes: a path is inside directory `d` when it starts with `d ++ "/"`. -/
def startsWithL (pre s : String) : Bool := s.data.take pre.data.length == pre.data

/-- Container flavor of a font as fontTools records it: `none` is the
plain uncompressed SFNT container, `woff`/`woff2` the compressed ones. -/
inductive Flavor : Type
  | woff : Flavor
  | woff2 : Flavor
deriving DecidableEq, Repr

/-- What `TTFont(path)` recovers from a font file that the claims need:
the container flavor of the file it was read from and the glyph order. -/
structure FontData : Type where
  flavor : Option Flavor
  glyphOrder : List String
deriving DecidableEq, Repr

/-- Oracle for the fontTools library: `parse` is what opening a file's
bytes as a `TTFont` yields (`none` = the constructor raises), `save` is
serialization of a font value (`none` = `save` raises). -/
structure FontLib : Type where
  parse : List Nat → Option FontData
  save : FontData → Option (List Nat)

/-- An HTTP response as the script observes it through `requests.get(url,
stream=True)`: a status code, the chunks delivered by `iter_content`, and
whether the stream then fails mid-transfer (before being exhausted). -/
structure NetResponse : Type where
  status : Nat
  chunks : List (List Nat)
  truncated : Bool
deriving DecidableEq, Repr

/-- The network oracle: `none` means the connection itself fails
(`requests.get` raises before any response exists). -/
def NetOracle : Type := String → Option NetResponse

/-- `response.raise_for_status()` raises exactly for 4xx and 5xx codes. -/
def isErrorStatus (s : Nat) : Bool := 400 ≤ s && s < 600

/-- Flat filesystem model: an association list from path strings to file
contents, and the list of existing directories. -/
structure SysFS : Type where
  files : List (String × List Nat)
  dirs : List String
deriving DecidableEq, Repr

/-- Read a file's bytes, `none` when absent. -/
def SysFS.read (fs : SysFS) (p : String) : Option (List Nat) :=
  (fs.files.find? (fun kv => kv.1 == p)).map (fun kv => kv.2)

/-- Create or overwrite a file (`open(path, "wb")` followed by writes). -/
def SysFS.write (fs : SysFS) (p : String) (b : List Nat) : SysFS :=
  { fs with files := (p, b) :: fs.files.filter (fun kv => kv.1 != p) }

/-- `os.makedirs(d, exist_ok=True)`. -/
def SysFS.mkdir (fs : SysFS) (d : String) : SysFS :=
  if d ∈ fs.dirs then fs else { fs with dirs := d :: fs.dirs }

/-- `os.rename(src, dst)` on the success path: move the file at `src`
to `dst` (identity when `src` is absent, a case `main` never reaches). -/
def SysFS.rename (fs : SysFS) (src dst : String) : SysFS :=
  match fs.read src with
  | none => fs
  | some b =>
      SysFS.write { fs with files := fs.files.filter (fun kv => kv.1 != src) } dst b

/-- `shutil.rmtree(d)`: remove the directory and every file under it. -/
def SysFS.removeAll (fs : SysFS) (d : String) : SysFS :=
  { files := fs.files.filter (fun kv => !(startsWithL (d ++ "/") kv.1)),
    dirs := fs.dirs.filter (fun e => e != d) }

namespace FontConverter

/-- `FontConverter.download_font` (lines 27-42): `requests.get` with
`raise_for_status()` checked before the output file is opened; the body
is then streamed chunk by chunk into the file; any exception yields
`False`. A truncated stream leaves the partially written file behind. -/
def download_font (net : NetOracle) (url output_path : String) (fs : SysFS) :
    Bool × SysFS :=
  match net url with
  | none => (false, fs)
  | some r =>
      if isErrorStatus r.status then (false, fs)
      else
        if r.truncated then (false, fs.write output_path r.chunks.flatten)
        else (true, fs.write output_path r.chunks.flatten)

/-- `FontConverter.detect_font_format` (lines 44-47):
`os.path.splitext(file_path)[1].lower().lstrip('.')`. -/
def detect_font_format (file_path : String) : String :=
  String.mk (((splitextL file_path.data).2.map Char.toLower).dropWhile
    (fun c => c == '.'))

/-- The flavor carried by the font when it is saved (lines 57-67): the
`woff2`/`woff` branches assign `font.flavor`; the `ttf`/`otf` branches
`pass`, leaving the flavor the input file was parsed with. -/
def appliedFlavor (f : Option Flavor) (output_format : String) : Option Flavor :=
  if output_format = "woff2" then some Flavor.woff2
  else if output_format = "woff" then some Flavor.woff
  else f

/-- `FontConverter.convert_font` (lines 49-78): open the input as a
`TTFont`, update the flavor per the target format, save to the output
path; any exception (missing file, parse failure, save failure) yields
`False` and no output file. -/
def convert_font (lib : FontLib) (input_path output_path output_format : String)
    (fs : SysFS) : Bool × SysFS :=
  match fs.read input_path with
  | none => (false, fs)
  | some bytes =>
      match lib.parse bytes with
      | none => (false, fs)
      | some font =>
          match lib.save { font with flavor := appliedFlavor font.flavor output_format } with
          | none => (false, fs)
          | some out => (true, fs.write output_path out)

/-- `FontConverter.validate_font` (lines 80-88): open the file as a
`TTFont` and test `len(font.getGlyphOrder()) > 0`; every exception is
caught by the bare `except` and folded into `False`. The result is a
total `Bool`: nothing propagates past this boundary. -/
def validate_font (lib : FontLib) (file_path : String) (fs : SysFS) : Bool :=
  match fs.read file_path with
  | none => false
  | some bytes =>
      match lib.parse bytes with
      | none => false
      | some font => decide (0 < font.glyphOrder.length)

end FontConverter

/-- Parsed command line: `--url` and `--output-format` are required
(argparse restricts the format to ttf/otf/woff/woff2), `--output-name`
is optional. -/
structure Args : Type where
  url : String
  output_format : String
  output_name : Option String
deriving DecidableEq, Repr

/-- Line 106: `os.path.basename(args.url).split('?')[0]` — basename
first, then truncate at the first `'?'`. -/
def input_filename_of (url : String) : String :=
  String.mk ((basenameL url.data).takeWhile (fun c => c != '?'))

/-- Line 107: the download target inside the scratch directory. -/
def input_path_of (args : Args) : String :=
  "temp_fonts/" ++ input_filename_of args.url

/-- Lines 119-123: `<output-name>.<format>` when `--output-name` is
supplied with a truthy (nonempty) value, else the input file's stem plus
the format. -/
def output_filename_of (args : Args) : String :=
  match args.output_name with
  | some n =>
      if n = "" then
        String.mk (splitextL (input_filename_of args.url).data).1 ++ "." ++ args.output_format
      else n ++ "." ++ args.output_format
  | none =>
      String.mk (splitextL (input_filename_of args.url).data).1 ++ "." ++ args.output_format

/-- Line 125: the conversion target inside the scratch directory. -/
def output_path_of (args : Args) : String :=
  "temp_fonts/" ++ output_filename_of args

/-- The pipeline stages of `main`, in order. -/
inductive Stage : Type
  | download : Stage
  | validateInput : Stage
  | convert : Stage
  | validateOutput : Stage
  | detectFormat : Stage
deriving DecidableEq, Repr

/-- Observable outcome of one `main` run: the process exit code, the
final filesystem, which stages ran with which boolean outcome, and the
`input_size`/`output_size` pair reported on success. -/
structure RunResult : Type where
  exitCode : Nat
  fs : SysFS
  trace : List (Stage × Bool)
  sizes : Option (Nat × Nat)
deriving DecidableEq, Repr

/-- The trace of a fully successful run. -/
def okTrace : List (Stage × Bool) :=
  [(Stage.download, true), (Stage.validateInput, true),
   (Stage.convert, true), (Stage.validateOutput, true)]

/-- `main` (lines 90-155): make the scratch directory, derive the input
name from the URL, download, validate, convert, validate the output,
record the two sizes (`os.path.getsize` on both scratch paths), move the
output into the working directory, remove the scratch directory.  Each
failing stage exits with status 1 immediately, before any cleanup. -/
def pyMain (net : NetOracle) (lib : FontLib) (args : Args) (fs0 : SysFS) :
    RunResult :=
  match FontConverter.download_font net args.url (input_path_of args)
      (fs0.mkdir "temp_fonts") with
  | (false, fs2) => ⟨1, fs2, [(Stage.download, false)], none⟩
  | (true, fs2) =>
      if FontConverter.validate_font lib (input_path_of args) fs2 then
        match FontConverter.convert_font lib (input_path_of args)
            (output_path_of args) args.output_format fs2 with
        | (false, fs3) =>
            ⟨1, fs3, [(Stage.download, true), (Stage.validateInput, true),
              (Stage.convert, false)], none⟩
        | (true, fs3) =>
            if FontConverter.validate_font lib (output_path_of args) fs3 then
              ⟨0,
                (fs3.rename (output_path_of args) (output_filename_of args)).removeAll
                  "temp_fonts",
                okTrace,
                some (((fs3.read (input_path_of args)).getD []).length,
                  ((fs3.read (output_path_of args)).getD []).length)⟩
            else
              ⟨1, fs3, [(Stage.download, true), (Stage.validateInput, true),
                (Stage.convert, true), (Stage.validateOutput, false)], none⟩
      else
        ⟨1, fs2, [(Stage.download, true), (Stage.validateInput, false)], none⟩

/-- The percentage printed on line 143, `(1 - output_size/input_size) * 100`,
as an exact rational in terms of the reported size pair. -/
def reportedRatio : Option (Nat × Nat) → ℚ
  | some (i, o) => (1 - (o : ℚ) / (i : ℚ)) * 100
  | none => 0

/-- The empty filesystem a fresh CI working directory provides. -/
def emptyFS : SysFS := ⟨[], []⟩

/-- The name the spec's words for C3 describe: the URL's last path
segment computed after the query string has been stripped, so that
nothing after the first `'?'` can influence the chosen name. -/
def lastSegmentQueryStripped (url : String) : String :=
  String.mk (basenameL (url.data.takeWhile (fun c => c != '?')))

/-- Network oracle answering every URL with status 200 and the single
one-byte chunk `[1]`. -/
def net200 : NetOracle := fun _ => some ⟨200, [[1]], false⟩

/-- Network oracle answering every URL with a three-byte body. -/
def net200big : NetOracle := fun _ => some ⟨200, [[1, 1, 1]], false⟩

/-- Network oracle answering every URL with HTTP 404. -/
def net404 : NetOracle := fun _ => some ⟨404, [[7]], false⟩

/-- Network oracle whose stream delivers one chunk and then fails. -/
def netTrunc : NetOracle := fun _ => some ⟨200, [[5]], true⟩

/-- Network oracle for which the connection itself fails. -/
def netDown : NetOracle := fun _ => none

/-- Font library for which the downloaded bytes `[1]` parse to a
one-glyph font but the saved bytes `[2]` parse to a glyph-less font, so
that output validation fails. -/
def libGlyphlessOut : FontLib where
  parse b := if b = [1] then some ⟨none, ["g"]⟩ else if b = [2] then some ⟨none, []⟩ else none
  save _ := some [2]

/-- Font library for which both the downloaded bytes `[1]` and the saved
bytes `[2]` parse to a one-glyph font: every stage succeeds. -/
def libOk : FontLib where
  parse b := if b = [1] ∨ b = [2] then some ⟨none, ["g"]⟩ else none
  save _ := some [2]

/-- Variant of `libOk` whose valid input is the three-byte body of
`net200big`, used to exercise the input/output path collision. -/
def libOkBig : FontLib where
  parse b := if b = [1, 1, 1] ∨ b = [2] then some ⟨none, ["g"]⟩ else none
  save _ := some [2]

/-- Font library that rejects every byte string. -/
def libRejectAll : FontLib where
  parse _ := none
  save _ := some [2]

/-- Arguments converting `f.ttf` to ttf with no explicit output name:
the output path collides with the input path. -/
def argsTtf : Args := ⟨"http://e/f.ttf", "ttf", none⟩

/-- Arguments with `--output-name` supplied as the empty string. -/
def argsEmptyName : Args := ⟨"http://e/f.ttf", "woff2", some ""⟩

/-- Arguments with `--output-name foo --output-format woff2`. -/
def argsFoo : Args := ⟨"http://e/f.ttf", "woff2", some "foo"⟩

theorem lastIdx_nonneg_iff (c : Char) (l : List Char) : 0 ≤ lastIdx c l ↔ c ∈ l := by
  induction l with
  | nil => simp [lastIdx]
  | cons x xs ih =>
    simp only [lastIdx]
    split_ifs with h1 h2
    · simp only [List.mem_cons]
      constructor
      · intro _; exact Or.inr (ih.mp h1)
      · intro _; omega
    · subst h2
      simp [List.mem_cons]
    · simp only [List.mem_cons]
      constructor
      · intro hle; omega
      · rintro (hcx | hm)
        · exact absurd hcx.symm h2
        · exact absurd (ih.mpr hm) h1

theorem lastIdx_eq_neg_one_or_nonneg (c : Char) (l : List Char) :
    lastIdx c l = -1 ∨ 0 ≤ lastIdx c l := by
  induction l with
  | nil => simp [lastIdx]
  | cons x xs ih =>
    simp only [lastIdx]
    split_ifs with h1 h2
    · omega
    · omega
    · omega

theorem basenameL_cons (x : Char) (xs : List Char) :
    basenameL (x :: xs) = if x = '/' ∨ '/' ∈ xs then basenameL xs else x :: xs := by
  unfold basenameL
  simp only [lastIdx]
  rcases lastIdx_eq_neg_one_or_nonneg '/' xs with h | h
  · have hmem : '/' ∉ xs := by
      intro hm
      have := (lastIdx_nonneg_iff '/' xs).mpr hm
      omega
    rw [if_neg (by omega : ¬ (0 : Int) ≤ lastIdx '/' xs)]
    by_cases hx : x = '/'
    · rw [if_pos hx, if_pos (Or.inl hx), h]
      norm_num
    · rw [if_neg hx, if_neg (by tauto : ¬ (x = '/' ∨ '/' ∈ xs))]
      norm_num
  · have hmem : '/' ∈ xs := (lastIdx_nonneg_iff '/' xs).mp h
    rw [if_pos h, if_pos (Or.inr hmem)]
    have ht : ((lastIdx '/' xs + 1) + 1).toNat = ((lastIdx '/' xs) + 1).toNat + 1 := by
      omega
    rw [ht, List.drop_succ_cons]

theorem basenameL_takeWhile_query (l : List Char)
    (h : (l.dropWhile (fun c => c != '?')).all (fun c => c != '/') = true) :
    (basenameL l).takeWhile (fun c => c != '?') =
      basenameL (l.takeWhile (fun c => c != '?')) := by
  induction l with
  | nil => rfl
  | cons x xs ih =>
    by_cases hx : x = '?'
    · subst hx
      have hdw : List.dropWhile (fun c => c != '?') ('?' :: xs) = '?' :: xs := by
        simp [List.dropWhile_cons]
      rw [hdw] at h
      simp only [List.all_eq_true] at h
      have hmem : '/' ∉ xs := by
        intro hm
        have := h '/' (List.mem_cons_of_mem _ hm)
        simp at this
      have htw : List.takeWhile (fun c => c != '?') ('?' :: xs) = [] := by
        simp [List.takeWhile_cons]
      rw [htw, basenameL_cons,
        if_neg (by simp [hmem] : ¬('?' = '/' ∨ '/' ∈ xs)), htw]
      rfl
    · have hdw : List.dropWhile (fun c => c != '?') (x :: xs) =
          List.dropWhile (fun c => c != '?') xs := by
        simp [List.dropWhile_cons, hx]
      rw [hdw] at h
      have htw : List.takeWhile (fun c => c != '?') (x :: xs) =
          x :: List.takeWhile (fun c => c != '?') xs := by
        simp [List.takeWhile_cons, hx]
      have hsplit : List.takeWhile (fun c => c != '?') xs ++
          List.dropWhile (fun c => c != '?') xs = xs :=
        List.takeWhile_append_dropWhile (fun c => c != '?') xs
      have hnd : '/' ∉ List.dropWhile (fun c => c != '?') xs := by
        simp only [List.all_eq_true] at h
        intro hm
        have := h '/' hm
        simp at this
      have hmemiff : '/' ∈ xs ↔ '/' ∈ List.takeWhile (fun c => c != '?') xs := by
        conv_lhs => rw [← hsplit]
        simp only [List.mem_append]
        exact or_iff_left hnd
      rw [htw, basenameL_cons, basenameL_cons]
      by_cases hcond : x = '/' ∨ '/' ∈ xs
      · have hcond2 : x = '/' ∨ '/' ∈ List.takeWhile (fun c => c != '?') xs := by
          rcases hcond with h1 | h1
          · exact Or.inl h1
          · exact Or.inr (hmemiff.mp h1)
        rw [if_pos hcond, if_pos hcond2]
        exact ih h
      · have hcond2 : ¬(x = '/' ∨ '/' ∈ List.takeWhile (fun c => c != '?') xs) := by
          intro hc
          apply hcond
          rcases hc with h1 | h1
          · exact Or.inl h1
          · exact Or.inr (hmemiff.mpr h1)
        rw [if_neg hcond, if_neg hcond2]
        exact htw

/-- C2, counterexample: the claim says a `ttf` target is written with
the library's plain (uncompressed, `none`) flavor regardless of the
input font's flavor; but the `ttf`/`otf` branches of `convert_font`
leave `font.flavor` untouched, so a WOFF input converted to `ttf` is
saved with flavor `woff`, not `none`. -/
theorem c2_ttf_keeps_input_flavor_cex :
    FontConverter.appliedFlavor (some Flavor.woff) "ttf" = some Flavor.woff ∧
    FontConverter.appliedFlavor (some Flavor.woff) "ttf" ≠ none := by
  constructor
  · decide
  · decide

/-- C2, amended: target `woff2`/`woff` sets the saved flavor to exactly
that compressed format; target `ttf`/`otf` leaves the flavor exactly as
parsed from the input, so the output is the plain uncompressed container
only when the input already was one. -/
theorem c2_appliedFlavor_spec (f : Option Flavor) :
    FontConverter.appliedFlavor f "woff2" = some Flavor.woff2 ∧
    FontConverter.appliedFlavor f "woff" = some Flavor.woff ∧
    FontConverter.appliedFlavor f "ttf" = f ∧
    FontConverter.appliedFlavor f "otf" = f := by
  unfold FontConverter.appliedFlavor
  refine ⟨if_pos rfl, ?_, ?_, ?_⟩
  · rw [if_neg (by decide), if_pos rfl]
  · rw [if_neg (by decide), if_neg (by decide)]
  · rw [if_neg (by decide), if_neg (by decide)]

/-- C3, counterexample: the claim says the generated local name is the
URL's last path segment with the query stripped, unaffected by `'/'`
characters inside the query; but the code applies `basename` before
stripping the query, so for `http://x/a.ttf?q=y/z` it derives `z`
instead of `a.ttf`. -/
theorem c3_query_slash_cex :
    input_filename_of "http://x/a.ttf?q=y/z" = "z" ∧
    lastSegmentQueryStripped "http://x/a.ttf?q=y/z" = "a.ttf" ∧
    input_filename_of "http://x/a.ttf?q=y/z" ≠
      lastSegmentQueryStripped "http://x/a.ttf?q=y/z" := by
  refine ⟨by decide, by decide, by decide⟩

/-- C3, amended: the generated local name is `basename` applied before
query stripping; whenever the URL contains no `'/'` at or after its
first `'?'`, it agrees with "last path segment with the query string
stripped" (a sufficient condition: a query slash can change the result,
as the counterexample shows, though it need not — both orders give the
same name for a URL such as `x/a?b/a`). -/
theorem c3_input_filename_eq_lastSegment (url : String)
    (h : (url.data.dropWhile (fun c => c != '?')).all (fun c => c != '/') = true) :
    input_filename_of url = lastSegmentQueryStripped url :=
  congrArg String.mk (basenameL_takeWhile_query url.data h)

/-- C3 witness: a URL whose query has no slash. -/
theorem c3_input_filename_eq_lastSegment_witness :
    input_filename_of "http://x/a.ttf?k=v" =
      lastSegmentQueryStripped "http://x/a.ttf?k=v" :=
  c3_input_filename_eq_lastSegment "http://x/a.ttf?k=v" (by decide)

/-- C4: `validate_font` returns `true` exactly when the file exists, its
bytes open as a font container without error, and the container exposes
at least one glyph identifier.  The function is a total `Bool`-valued
function of the library oracle, path and filesystem: by construction no
exception escapes it (the Python bare `except` folds every failure into
`False`, modelled by the `none` branches). -/
theorem c4_validate_font_iff (lib : FontLib) (p : String) (fs : SysFS) :
    FontConverter.validate_font lib p fs = true ↔
      ∃ b font, fs.read p = some b ∧ lib.parse b = some font ∧
        0 < font.glyphOrder.length := by
  unfold FontConverter.validate_font
  rcases h1 : fs.read p with _ | b
  · simp
  · rcases h2 : lib.parse b with _ | font
    · simp [h2]
    · simp only [h2, decide_eq_true_eq]
      constructor
      · intro hg
        exact ⟨b, font, rfl, h2, hg⟩
      · rintro ⟨b2, f2, hb, hf, hg⟩
        obtain rfl : b = b2 := by injection hb
        rw [h2] at hf
        obtain rfl : font = f2 := by injection hf
        exact hg

/-- C9: when the HTTP response carries an error status,
`raise_for_status` fires before the output file is opened, so
`download_font` returns `false` with the filesystem unchanged — no
partial artifact.  The second conjunct shows the boundary of that
atomicity: a connection that delivers a chunk and then fails mid-stream
returns `false` but leaves the partially written file behind. -/
theorem c9_download_font_atomic :
    (∀ (net : NetOracle) (url path : String) (fs : SysFS) (r : NetResponse),
      net url = some r → isErrorStatus r.status = true →
      FontConverter.download_font net url path fs = (false, fs)) ∧
    (FontConverter.download_font netTrunc "u" "p" emptyFS =
        (false, emptyFS.write "p" [5]) ∧
      (FontConverter.download_font netTrunc "u" "p" emptyFS).2.read "p" = some [5]) := by
  constructor
  · intro net url path fs r hr hs
    unfold FontConverter.download_font
    rw [hr]
    simp [hs]
  · constructor
    · decide
    · decide

/-- C9 witness: a 404 response leaves the filesystem untouched. -/
theorem c9_download_font_atomic_witness :
    FontConverter.download_font net404 "u" "p" emptyFS = (false, emptyFS) :=
  c9_download_font_atomic.1 net404 "u" "p" emptyFS ⟨404, [[7]], false⟩ rfl rfl

/-- C5: the process exits 0 exactly when all four pipeline stages
(download, input validation, conversion, output validation) succeed; the
exit code is always 0 or 1; and any failed stage yields exit code 1, the
same undifferentiated code for all four failure kinds. -/
theorem c5_exit_codes (net : NetOracle) (lib : FontLib) (args : Args) (fs0 : SysFS) :
    ((pyMain net lib args fs0).exitCode = 0 ↔
      (pyMain net lib args fs0).trace = okTrace) ∧
    ((pyMain net lib args fs0).exitCode = 0 ∨ (pyMain net lib args fs0).exitCode = 1) ∧
    (∀ s : Stage, (s, false) ∈ (pyMain net lib args fs0).trace →
      (pyMain net lib args fs0).exitCode = 1) := by
  rcases hd : FontConverter.download_font net args.url (input_path_of args)
      (fs0.mkdir "temp_fonts") with ⟨db, fs2⟩
  cases db
  · simp [pyMain, hd, okTrace]
  · by_cases hv1 : FontConverter.validate_font lib (input_path_of args) fs2
    · rcases hc : FontConverter.convert_font lib (input_path_of args)
          (output_path_of args) args.output_format fs2 with ⟨cb, fs3⟩
      cases cb
      · simp [pyMain, hd, hv1, hc, okTrace]
      · by_cases hv2 : FontConverter.validate_font lib (output_path_of args) fs3
        · simp [pyMain, hd, hv1, hc, hv2, okTrace]
        · simp [pyMain, hd, hv1, hc, hv2, okTrace]
    · simp [pyMain, hd, hv1, okTrace]

/-- C5 witness: a run whose download fails exits 1. -/
theorem c5_exit_codes_witness :
    (pyMain netDown libOk argsTtf emptyFS).exitCode = 1 :=
  (c5_exit_codes netDown libOk argsTtf emptyFS).2.2 Stage.download (by decide)

/-- C8: a run whose input validation fails exits with status 1 and its
trace contains no conversion event at all — `convert_font` is never
invoked on an input that did not pass validation. -/
theorem c8_no_convert_after_invalid_input (net : NetOracle) (lib : FontLib)
    (args : Args) (fs0 : SysFS)
    (h : (Stage.validateInput, false) ∈ (pyMain net lib args fs0).trace) :
    (pyMain net lib args fs0).exitCode = 1 ∧
      ∀ b : Bool, (Stage.convert, b) ∉ (pyMain net lib args fs0).trace := by
  rcases hd : FontConverter.download_font net args.url (input_path_of args)
      (fs0.mkdir "temp_fonts") with ⟨db, fs2⟩
  cases db
  · simp [pyMain, hd] at h
  · by_cases hv1 : FontConverter.validate_font lib (input_path_of args) fs2
    · rcases hc : FontConverter.convert_font lib (input_path_of args)
          (output_path_of args) args.output_format fs2 with ⟨cb, fs3⟩
      cases cb
      · simp [pyMain, hd, hv1, hc] at h
      · by_cases hv2 : FontConverter.validate_font lib (output_path_of args) fs3
        · simp [pyMain, hd, hv1, hc, hv2, okTrace] at h
        · simp [pyMain, hd, hv1, hc, hv2] at h
    · simp only [pyMain, hd, hv1, if_neg]
      refine ⟨rfl, ?_⟩
      intro b
      cases b <;> simp

/-- C8 witness: a library rejecting all inputs makes input validation
fail; the run exits 1 without a conversion event. -/
theorem c8_no_convert_after_invalid_input_witness :
    (pyMain net200 libRejectAll argsTtf emptyFS).exitCode = 1 ∧
      ∀ b : Bool, (Stage.convert, b) ∉ (pyMain net200 libRejectAll argsTtf emptyFS).trace :=
  c8_no_convert_after_invalid_input net200 libRejectAll argsTtf emptyFS (by decide)

theorem mkdir_mem_dirs (fs : SysFS) (d : String) : d ∈ (fs.mkdir d).dirs := by
  unfold SysFS.mkdir
  split
  · assumption
  · exact List.mem_cons_self d fs.dirs

theorem write_dirs (fs : SysFS) (p : String) (b : List Nat) :
    (fs.write p b).dirs = fs.dirs := rfl

theorem download_font_dirs (net : NetOracle) (url p : String) (fs : SysFS) :
    (FontConverter.download_font net url p fs).2.dirs = fs.dirs := by
  unfold FontConverter.download_font
  cases net url
  · rfl
  · rename_i r
    dsimp only
    split_ifs <;> rfl

theorem convert_font_dirs (lib : FontLib) (ip op fmt : String) (fs : SysFS) :
    (FontConverter.convert_font lib ip op fmt fs).2.dirs = fs.dirs := by
  unfold FontConverter.convert_font
  cases fs.read ip
  · rfl
  · rename_i b
    dsimp only
    cases lib.parse b
    · rfl
    · rename_i font
      dsimp only
      cases lib.save { font with flavor := FontConverter.appliedFlavor font.flavor fmt }
      · rfl
      · rfl

theorem rename_dirs (fs : SysFS) (s t : String) : (fs.rename s t).dirs = fs.dirs := by
  unfold SysFS.rename
  cases fs.read s
  · rfl
  · rfl

theorem removeAll_not_mem_dirs (fs : SysFS) (d : String) :
    d ∉ (fs.removeAll d).dirs := by
  intro h
  simp [SysFS.removeAll, List.mem_filter] at h

/-- C1, counterexample: a run that reaches output validation and fails
there exits with status 1 while the scratch directory `temp_fonts` is
still present in the final filesystem — the claim that cleanup happens
before such an exit is false (`sys.exit(1)` on line 134 precedes the
`shutil.rmtree` on line 151). -/
theorem c1_scratch_left_behind_cex :
    (pyMain net200 libGlyphlessOut argsTtf emptyFS).exitCode = 1 ∧
    (Stage.validateOutput, false) ∈ (pyMain net200 libGlyphlessOut argsTtf emptyFS).trace ∧
    "temp_fonts" ∈ (pyMain net200 libGlyphlessOut argsTtf emptyFS).fs.dirs := by
  refine ⟨by decide, by decide, by decide⟩

/-- C1, amended: the scratch directory is removed only on the success
path; a run failing at the validate-output stage exits with status 1
with the scratch directory still present, while a run that exits 0 has
it removed. -/
theorem c1_cleanup_only_on_success (net : NetOracle) (lib : FontLib)
    (args : Args) (fs0 : SysFS) :
    ((Stage.validateOutput, false) ∈ (pyMain net lib args fs0).trace →
      (pyMain net lib args fs0).exitCode = 1 ∧
        "temp_fonts" ∈ (pyMain net lib args fs0).fs.dirs) ∧
    ((pyMain net lib args fs0).exitCode = 0 →
      "temp_fonts" ∉ (pyMain net lib args fs0).fs.dirs) := by
  rcases hd : FontConverter.download_font net args.url (input_path_of args)
      (fs0.mkdir "temp_fonts") with ⟨db, fs2⟩
  have h2d : fs2.dirs = (fs0.mkdir "temp_fonts").dirs := by
    rw [← download_font_dirs net args.url (input_path_of args) (fs0.mkdir "temp_fonts"),
      hd]
  cases db
  · simp [pyMain, hd]
  · by_cases hv1 : FontConverter.validate_font lib (input_path_of args) fs2
    · rcases hc : FontConverter.convert_font lib (input_path_of args)
          (output_path_of args) args.output_format fs2 with ⟨cb, fs3⟩
      have h3d : fs3.dirs = fs2.dirs := by
        rw [← convert_font_dirs lib (input_path_of args) (output_path_of args)
          args.output_format fs2, hc]
      cases cb
      · simp [pyMain, hd, hv1, hc]
      · by_cases hv2 : FontConverter.validate_font lib (output_path_of args) fs3
        · have hnm : "temp_fonts" ∉
              ((fs3.rename (output_path_of args) (output_filename_of args)).removeAll
                "temp_fonts").dirs :=
            removeAll_not_mem_dirs _ "temp_fonts"
          simp [pyMain, hd, hv1, hc, hv2, okTrace, hnm]
        · have hm : "temp_fonts" ∈ fs3.dirs := by
            rw [h3d, h2d]
            exact mkdir_mem_dirs fs0 "temp_fonts"
          simp [pyMain, hd, hv1, hc, hv2, hm]
    · simp [pyMain, hd, hv1]

/-- C1 witness: a fully successful run ends with the scratch directory
absent. -/
theorem c1_cleanup_only_on_success_witness :
    "temp_fonts" ∉ (pyMain net200 libOk argsFoo emptyFS).fs.dirs :=
  (c1_cleanup_only_on_success net200 libOk argsFoo emptyFS).2 (by decide)

theorem mkdir_files (fs : SysFS) (d : String) : (fs.mkdir d).files = fs.files := by
  unfold SysFS.mkdir
  split <;> rfl

theorem data_append (t s : String) : (t ++ s).data = t.data ++ s.data := by
  rcases t with ⟨a⟩
  rcases s with ⟨b⟩
  rfl

theorem startsWithL_append (t s : String) : startsWithL t (t ++ s) = true := by
  unfold startsWithL
  rw [data_append, List.take_left]
  exact beq_self_eq_true t.data

theorem read_write_self (fs : SysFS) (p : String) (b : List Nat) :
    (fs.write p b).read p = some b := by
  simp [SysFS.read, SysFS.write]

theorem find?_filter_ne (l : List (String × List Nat)) (p q : String) (h : q ≠ p) :
    ((l.filter (fun kv => kv.1 != p)).find? (fun kv => kv.1 == q)) =
      l.find? (fun kv => kv.1 == q) := by
  induction l with
  | nil => rfl
  | cons kv tl ih =>
    by_cases h1 : kv.1 = p
    · have hq : (p == q) = false := by
        simp
        exact fun he => h he.symm
      simp [List.filter_cons, h1, List.find?_cons, hq, ih]
    · by_cases h2 : kv.1 = q
      · simp [List.filter_cons, h1, List.find?_cons, h2, h]
      · simp [List.filter_cons, h1, List.find?_cons, h2, ih]

theorem read_write_ne (fs : SysFS) (p q : String) (b : List Nat) (h : q ≠ p) :
    (fs.write p b).read q = fs.read q := by
  unfold SysFS.read SysFS.write
  simp only [List.find?_cons]
  have hpq : (p == q) = false := by
    simp
    exact fun he => h he.symm
  rw [hpq]
  rw [find?_filter_ne fs.files p q h]

theorem download_font_true_inv (net : NetOracle) (url p : String) (fs fs2 : SysFS)
    (h : FontConverter.download_font net url p fs = (true, fs2)) :
    ∃ r : NetResponse, net url = some r ∧ isErrorStatus r.status = false ∧
      r.truncated = false ∧ fs2 = fs.write p r.chunks.flatten := by
  unfold FontConverter.download_font at h
  rcases hn : net url with _ | r
  · rw [hn] at h
    simp at h
  · rw [hn] at h
    dsimp only at h
    by_cases h1 : isErrorStatus r.status
    · rw [if_pos h1] at h
      simp at h
    · rw [if_neg h1] at h
      by_cases h2 : r.truncated
      · rw [if_pos h2] at h
        simp at h
      · rw [if_neg h2] at h
        refine ⟨r, rfl, by simpa using h1, by simpa using h2, ?_⟩
        exact (Prod.mk.injEq _ _ _ _ ▸ h).2.symm

theorem convert_font_true_inv (lib : FontLib) (ip op fmt : String) (fs fs2 : SysFS)
    (h : FontConverter.convert_font lib ip op fmt fs = (true, fs2)) :
    ∃ b font out, fs.read ip = some b ∧ lib.parse b = some font ∧
      lib.save { font with flavor := FontConverter.appliedFlavor font.flavor fmt } =
        some out ∧
      fs2 = fs.write op out := by
  unfold FontConverter.convert_font at h
  rcases h1 : fs.read ip with _ | b
  · rw [h1] at h
    simp at h
  · rw [h1] at h
    dsimp only at h
    rcases h2 : lib.parse b with _ | font
    · rw [h2] at h
      simp at h
    · rw [h2] at h
      dsimp only at h
      rcases h3 : lib.save { font with
          flavor := FontConverter.appliedFlavor font.flavor fmt } with _ | out
      · rw [h3] at h
        simp at h
      · rw [h3] at h
        refine ⟨b, font, out, rfl, h2, h3, ?_⟩
        exact (Prod.mk.injEq _ _ _ _ ▸ h).2.symm

theorem final_files (ip op ofn : String) (dl out : List Nat) (fs1 : SysFS)
    (hfs1 : fs1.files = [])
    (hip : startsWithL "temp_fonts/" ip = true)
    (hofn : startsWithL "temp_fonts/" ofn = false) :
    ((((fs1.write ip dl).write op out).rename op ofn).removeAll
      "temp_fonts").files.map Prod.fst = [ofn] := by
  have hipofn : ip ≠ ofn := by
    intro he
    rw [he, hofn] at hip
    simp at hip
  unfold SysFS.rename
  rw [read_write_self]
  by_cases hio : ip = op
  · subst hio
    simp [SysFS.write, SysFS.removeAll, hfs1, hofn, hipofn]
  · simp [SysFS.write, SysFS.removeAll, hfs1, hofn, hipofn, hio, hip]

/-- C6, counterexample: with `--output-name` supplied as the empty
string (a supplied output name), the claim demands the published file be
named `.woff2`; Python's truthiness test `if args.output_name:` treats
the empty string as absent, so the run succeeds and publishes
`f.woff2` derived from the URL's base name instead. -/
theorem c6_empty_output_name_cex :
    (pyMain net200 libOk argsEmptyName emptyFS).exitCode = 0 ∧
    argsEmptyName.output_name = some "" ∧
    (pyMain net200 libOk argsEmptyName emptyFS).fs.read ".woff2" = none ∧
    (pyMain net200 libOk argsEmptyName emptyFS).fs.read "f.woff2" = some [2] := by
  refine ⟨by decide, rfl, by decide, by decide⟩

/-- C6, amended: a successful run started in a working directory with no
files leaves exactly one file, named `<output-name>.<format>` when
`--output-name` is supplied with a nonempty value and
`<original-base-name>.<format>` otherwise (the empty string counts as
not supplied); the hypothesis on `startsWithL` excludes output names
that deliberately place the published file inside the scratch directory,
where the cleanup would delete it. -/
theorem c6_single_output_file (net : NetOracle) (lib : FontLib) (args : Args)
    (fs0 : SysFS) (hfiles : fs0.files = [])
    (hofn : startsWithL "temp_fonts/" (output_filename_of args) = false)
    (h0 : (pyMain net lib args fs0).exitCode = 0) :
    (pyMain net lib args fs0).fs.files.map Prod.fst = [output_filename_of args] ∧
    (∀ n : String, args.output_name = some n → n ≠ "" →
      output_filename_of args = n ++ "." ++ args.output_format) := by
  refine ⟨?_, ?_⟩
  · rcases hd : FontConverter.download_font net args.url (input_path_of args)
        (fs0.mkdir "temp_fonts") with ⟨db, fs2⟩
    cases db
    · simp [pyMain, hd] at h0
    · by_cases hv1 : FontConverter.validate_font lib (input_path_of args) fs2
      · rcases hc : FontConverter.convert_font lib (input_path_of args)
            (output_path_of args) args.output_format fs2 with ⟨cb, fs3⟩
        cases cb
        · simp [pyMain, hd, hv1, hc] at h0
        · by_cases hv2 : FontConverter.validate_font lib (output_path_of args) fs3
          · obtain ⟨r, hnr, hns, hnt, hfs2⟩ :=
              download_font_true_inv net args.url (input_path_of args)
                (fs0.mkdir "temp_fonts") fs2 hd
            obtain ⟨b, font, out, hb, hf, hs, hfs3⟩ :=
              convert_font_true_inv lib (input_path_of args) (output_path_of args)
                args.output_format fs2 fs3 hc
            simp only [pyMain, hd, hv1, hc, hv2, if_pos]
            rw [hfs3, hfs2]
            exact final_files (input_path_of args) (output_path_of args)
              (output_filename_of args) r.chunks.flatten out (fs0.mkdir "temp_fonts")
              (by rw [mkdir_files]; exact hfiles)
              (by unfold input_path_of; exact startsWithL_append _ _) hofn
          · simp [pyMain, hd, hv1, hc, hv2] at h0
      · simp [pyMain, hd, hv1] at h0
  · intro n hn hne
    simp [output_filename_of, hn, hne]

/-- C6 witness: `--output-name foo --output-format woff2` on a
successful run publishes exactly the single file `foo.woff2`. -/
theorem c6_single_output_file_witness :
    (pyMain net200 libOk argsFoo emptyFS).fs.files.map Prod.fst = ["foo.woff2"] := by
  have h := c6_single_output_file net200 libOk argsFoo emptyFS rfl (by decide) (by decide)
  rw [h.1]
  decide

theorem validate_font_true_inv (lib : FontLib) (p : String) (fs : SysFS)
    (h : FontConverter.validate_font lib p fs = true) :
    ∃ b font, fs.read p = some b ∧ lib.parse b = some font ∧
      0 < font.glyphOrder.length := by
  unfold FontConverter.validate_font at h
  rcases h1 : fs.read p with _ | b
  · rw [h1] at h
    simp at h
  · rw [h1] at h
    dsimp only at h
    rcases h2 : lib.parse b with _ | font
    · rw [h2] at h
      simp at h
    · rw [h2] at h
      exact ⟨b, font, rfl, h2, by simpa using h⟩

/-- C7, counterexample: when the derived output filename collides with
the input filename (converting `f.ttf` to ttf), `font.save` overwrites
the downloaded file, so the reported `input_size` is the converted
file's size (1 byte here), not the downloaded file's size (3 bytes): the
reported sizes are not "the byte sizes of the downloaded and converted
files". -/
theorem c7_collision_input_size_cex :
    (pyMain net200big libOkBig argsTtf emptyFS).exitCode = 0 ∧
    (pyMain net200big libOkBig argsTtf emptyFS).sizes = some (1, 1) ∧
    (net200big argsTtf.url).map (fun r => r.chunks.flatten.length) = some 3 ∧
    (1 : Nat) ≠ 3 := by
  refine ⟨by decide, by decide, by decide, by decide⟩

/-- C7, amended: on a successful run (with a font library that only
parses nonempty byte strings, as fontTools does — it reads a 4-byte
header), the reported sizes are positive, the reported compression
percentage is exactly `(1 - output_size/input_size) * 100` as a
rational, and `input_size` is the downloaded file's byte size whenever
the output path differs from the input path (when they collide, the
conversion overwrote the input, and `input_size` is the converted size). -/
theorem c7_sizes (net : NetOracle) (lib : FontLib) (args : Args) (fs0 : SysFS)
    (hlib : ∀ b font, lib.parse b = some font → 0 < b.length)
    (h0 : (pyMain net lib args fs0).exitCode = 0) :
    ∃ i o : Nat, (pyMain net lib args fs0).sizes = some (i, o) ∧ 0 < i ∧ 0 < o ∧
      reportedRatio (pyMain net lib args fs0).sizes = (1 - (o : ℚ) / (i : ℚ)) * 100 ∧
      (input_path_of args ≠ output_path_of args →
        ∃ r : NetResponse, net args.url = some r ∧ i = r.chunks.flatten.length) := by
  rcases hd : FontConverter.download_font net args.url (input_path_of args)
      (fs0.mkdir "temp_fonts") with ⟨db, fs2⟩
  cases db
  · simp [pyMain, hd] at h0
  · by_cases hv1 : FontConverter.validate_font lib (input_path_of args) fs2
    · rcases hc : FontConverter.convert_font lib (input_path_of args)
          (output_path_of args) args.output_format fs2 with ⟨cb, fs3⟩
      cases cb
      · simp [pyMain, hd, hv1, hc] at h0
      · by_cases hv2 : FontConverter.validate_font lib (output_path_of args) fs3
        · obtain ⟨r, hnr, hns, hnt, hfs2⟩ :=
            download_font_true_inv net args.url (input_path_of args)
              (fs0.mkdir "temp_fonts") fs2 hd
          obtain ⟨b, font, out, hb, hf, hsv, hfs3⟩ :=
            convert_font_true_inv lib (input_path_of args) (output_path_of args)
              args.output_format fs2 fs3 hc
          have hro : fs3.read (output_path_of args) = some out := by
            rw [hfs3]
            exact read_write_self fs2 (output_path_of args) out
          obtain ⟨b2, font2, hb2, hf2, _⟩ :=
            validate_font_true_inv lib (output_path_of args) fs3 hv2
          have hb2e : b2 = out := by
            rw [hro] at hb2
            injection hb2 with hx
            exact hx.symm
          have hopos : 0 < out.length := by
            have := hlib b2 font2 hf2
            rwa [hb2e] at this
          by_cases hio : input_path_of args = output_path_of args
          · have hri : fs3.read (input_path_of args) = some out := by
              rw [hio]
              exact hro
            have hsz : (pyMain net lib args fs0).sizes = some (out.length, out.length) := by
              simp [pyMain, hd, hv1, hc, hv2, hro, hri]
            exact ⟨out.length, out.length, hsz, hopos, hopos,
              by rw [hsz]; rfl, fun hne => (hne hio).elim⟩
          · have hri : fs3.read (input_path_of args) = some r.chunks.flatten := by
              rw [hfs3, read_write_ne fs2 (output_path_of args) (input_path_of args) out hio,
                hfs2]
              exact read_write_self _ _ _
            obtain ⟨b1, font1, hb1, hf1, _⟩ :=
              validate_font_true_inv lib (input_path_of args) fs2 hv1
            have hb1e : b1 = r.chunks.flatten := by
              rw [hfs2, read_write_self] at hb1
              injection hb1 with hx
              exact hx.symm
            have hipos : 0 < r.chunks.flatten.length := by
              have := hlib b1 font1 hf1
              rwa [hb1e] at this
            have hsz : (pyMain net lib args fs0).sizes =
                some (r.chunks.flatten.length, out.length) := by
              simp [pyMain, hd, hv1, hc, hv2, hro, hri]
            exact ⟨r.chunks.flatten.length, out.length, hsz, hipos, hopos,
              by rw [hsz]; rfl, fun _ => ⟨r, hnr, rfl⟩⟩
        · simp [pyMain, hd, hv1, hc, hv2] at h0
    · simp [pyMain, hd, hv1] at h0

/-- C7 witness: a successful non-colliding run reports positive sizes
with `input_size` equal to the downloaded byte count. -/
theorem c7_sizes_witness :
    ∃ i o : Nat, (pyMain net200 libOk argsFoo emptyFS).sizes = some (i, o) ∧
      0 < i ∧ 0 < o ∧
      reportedRatio (pyMain net200 libOk argsFoo emptyFS).sizes =
        (1 - (o : ℚ) / (i : ℚ)) * 100 ∧
      (input_path_of argsFoo ≠ output_path_of argsFoo →
        ∃ r : NetResponse, net200 argsFoo.url = some r ∧
          i = r.chunks.flatten.length) := by
  refine c7_sizes net200 libOk argsFoo emptyFS ?_ (by decide)
  intro b font h
  by_cases hb : b = [1] ∨ b = [2]
  · rcases hb with rfl | rfl <;> decide
  · simp [libOk, hb] at h

theorem drop_lastIdx_cons (c : Char) (l : List Char) (h : 0 ≤ lastIdx c l) :
    l.drop (lastIdx c l).toNat = c :: l.drop ((lastIdx c l).toNat + 1) := by
  induction l with
  | nil => simp [lastIdx] at h
  | cons x xs ih =>
    simp only [lastIdx] at h ⊢
    by_cases h1 : 0 ≤ lastIdx c xs
    · rw [if_pos h1] at h ⊢
      have e1 : (lastIdx c xs + 1).toNat = (lastIdx c xs).toNat + 1 := by omega
      rw [e1, List.drop_succ_cons, List.drop_succ_cons]
      exact ih h1
    · rw [if_neg h1] at h ⊢
      by_cases h2 : x = c
      · rw [if_pos h2] at h ⊢
        subst h2
        simp
      · rw [if_neg h2] at h
        omega

theorem not_mem_drop_succ_lastIdx (c : Char) (l : List Char) :
    c ∉ l.drop ((lastIdx c l).toNat + 1) := by
  induction l with
  | nil => simp
  | cons x xs ih =>
    simp only [lastIdx]
    by_cases h1 : 0 ≤ lastIdx c xs
    · rw [if_pos h1]
      have e1 : (lastIdx c xs + 1).toNat = (lastIdx c xs).toNat + 1 := by omega
      rw [e1, List.drop_succ_cons]
      exact ih
    · rw [if_neg h1]
      have hnm : c ∉ xs := fun hm => h1 ((lastIdx_nonneg_iff c xs).mpr hm)
      by_cases h2 : x = c
      · rw [if_pos h2]
        simpa using hnm
      · rw [if_neg h2]
        simpa using hnm

theorem splitextL_ext_shape (p : List Char) (h : (splitextL p).2 ≠ []) :
    0 ≤ lastIdx '.' p ∧ (splitextL p).2 = p.drop (lastIdx '.' p).toNat := by
  unfold splitextL at h ⊢
  by_cases h1 : lastIdx '/' p < lastIdx '.' p
  · by_cases h2 : ((p.take (lastIdx '.' p).toNat).drop (lastIdx '/' p + 1).toNat).any
        (fun c => c != '.') = true
    · rw [if_pos h1, if_pos h2]
      rcases lastIdx_eq_neg_one_or_nonneg '/' p with h3 | h3 <;>
        exact ⟨by omega, rfl⟩
    · rw [if_pos h1, if_neg h2] at h
      exact absurd rfl h
  · rw [if_neg h1] at h
    exact absurd rfl h

theorem toLower_eq_dot_imp (c : Char) (h : Char.toLower c = '.') : c = '.' := by
  unfold Char.toLower at h
  by_cases hr : c.toNat ≥ 65 ∧ c.toNat ≤ 90
  · rw [if_pos hr] at h
    obtain ⟨ha, hb⟩ := hr
    interval_cases hn : c.toNat <;> simp_all
  · rwa [if_neg hr] at h

theorem toLower_ne_dot (c : Char) (h : c ≠ '.') : Char.toLower c ≠ '.' :=
  fun he => h (toLower_eq_dot_imp c he)

theorem dropWhile_dot_map_toLower (l : List Char) (h : '.' ∉ l) :
    (l.map Char.toLower).dropWhile (fun c => c == '.') = l.map Char.toLower := by
  cases l with
  | nil => rfl
  | cons y ys =>
    have hy : y ≠ '.' := fun he => h (he ▸ List.mem_cons_self y ys)
    have hlow : (Char.toLower y == '.') = false := by
      simpa using toLower_ne_dot y hy
    simp [List.dropWhile_cons, hlow]

/-- C10: `detect_font_format` yields the empty string when the path has
no extension; otherwise the extension produced by `splitext` is a single
dot followed by a dot-free remainder, and the result is exactly that
remainder lowercased (the one leading dot removed).  The function's type
shows it inspects only the path string, never file bytes; and no run of
the `main` pipeline contains a format-detection event: the operation is
never consulted. -/
theorem c10_detect_font_format (p : String) :
    ((splitextL p.data).2 = [] → FontConverter.detect_font_format p = "") ∧
    ((splitextL p.data).2 ≠ [] →
      ∃ rest : List Char, (splitextL p.data).2 = '.' :: rest ∧ '.' ∉ rest ∧
        FontConverter.detect_font_format p = String.mk (rest.map Char.toLower)) ∧
    (∀ (net : NetOracle) (lib : FontLib) (args : Args) (fs0 : SysFS) (b : Bool),
      (Stage.detectFormat, b) ∉ (pyMain net lib args fs0).trace) := by
  refine ⟨?_, ?_, ?_⟩
  · intro he
    unfold FontConverter.detect_font_format
    rw [he]
    rfl
  · intro hne
    obtain ⟨hd0, hext⟩ := splitextL_ext_shape p.data hne
    have hcons := drop_lastIdx_cons '.' p.data hd0
    have hnm := not_mem_drop_succ_lastIdx '.' p.data
    refine ⟨p.data.drop ((lastIdx '.' p.data).toNat + 1), by rw [hext, hcons], hnm, ?_⟩
    unfold FontConverter.detect_font_format
    rw [hext, hcons]
    simp only [List.map_cons]
    have hdot : (Char.toLower '.' == '.') = true := by decide
    rw [List.dropWhile_cons, hdot]
    exact congrArg String.mk (dropWhile_dot_map_toLower _ hnm)
  · intro net lib args fs0 b
    rcases hd : FontConverter.download_font net args.url (input_path_of args)
        (fs0.mkdir "temp_fonts") with ⟨db, fs2⟩
    cases db
    · simp [pyMain, hd]
    · by_cases hv1 : FontConverter.validate_font lib (input_path_of args) fs2
      · rcases hc : FontConverter.convert_font lib (input_path_of args)
            (output_path_of args) args.output_format fs2 with ⟨cb, fs3⟩
        cases cb
        · simp [pyMain, hd, hv1, hc]
        · by_cases hv2 : FontConverter.validate_font lib (output_path_of args) fs3
          · simp [pyMain, hd, hv1, hc, hv2, okTrace]
          · simp [pyMain, hd, hv1, hc, hv2]
      · simp [pyMain, hd, hv1]

/-- C10 witness: a path without extension maps to the empty string, an
uppercase extension is lowercased with its leading dot removed, and a
concrete pipeline run contains no format-detection event. -/
theorem c10_detect_font_format_witness :
    FontConverter.detect_font_format "noext" = "" ∧
    FontConverter.detect_font_format "dir/a.TTF" = "ttf" ∧
    (Stage.detectFormat, true) ∉ (pyMain net200 libOk argsFoo emptyFS).trace := by
  refine ⟨(c10_detect_font_format "noext").1 (by decide), ?_,
    (c10_detect_font_format "x").2.2 net200 libOk argsFoo emptyFS true⟩
  obtain ⟨rest, h1, _, h3⟩ := (c10_detect_font_format "dir/a.TTF").2.1 (by decide)
  have h1e : ('.' :: rest : List Char) = ['.', 'T', 'T', 'F'] := by
    rw [← h1]
    decide
  have hr : rest = ['T', 'T', 'F'] := by
    injection h1e with _ hx
  rw [h3, hr]
  decide
